import Mathlib

/-!
Verification development for the relidler build-and-publish tool.

The definitions below are shallow embeddings of the TypeScript sources:
  * `src/libs/sdk/sdk-mod.ts` (build engine: version bumping, publish
    scoping, dependency filtering, dist-name derivation, and the
    cross-library import rewriting),
  * `src/app/pack/cmd.ts` (template packer/unpacker),
  * `src/libs/sdk/sdk-impl/build/providers/auto.ts` (entry-point inference).
Strings are modelled as `List Char` where character-level scanning matters
and wrapped back into `String` at the interfaces.  Filesystem state is
passed explicitly; fallible operations return `Except`/`Option`.
-/

/-! ## Generic list/string helpers -/

/-- Does `pat` occur as a contiguous infix of `l`?  Models JavaScript
`String.prototype.includes`. -/
def hasInfix (pat : List Char) : List Char → Bool
  | [] => pat.isEmpty
  | c :: r => pat.isPrefixOf (c :: r) || hasInfix pat r

/-- `String` version of `hasInfix`: JavaScript `s.includes(pat)`. -/
def strIncludes (s pat : String) : Bool := hasInfix pat.data s.data

/-- JavaScript `s.startsWith(pre)`. -/
def strStartsWith (s pre : String) : Bool := pre.data.isPrefixOf s.data

/-- JavaScript `s.endsWith(suf)`. -/
def strEndsWith (s suf : String) : Bool := suf.data.isSuffixOf s.data

/-- JavaScript `s.toLowerCase()` (ASCII-faithful). -/
def strLower (s : String) : String := ⟨s.data.map Char.toLower⟩

/-- Lexicographic `≤` on char lists, modelling JavaScript string `<=`. -/
def charListLe : List Char → List Char → Bool
  | [], _ => true
  | _ :: _, [] => false
  | a :: as, b :: bs =>
    if a = b then charListLe as bs else decide (a.toNat < b.toNat)

/-- JavaScript string comparison `a <= b`. -/
def strLe (a b : String) : Bool := charListLe a.data b.data

/-! ## C1 — semantic-version auto increment (`autoIncrementVersion`,
`sdk-mod.ts` lines 592-614)

The source delegates validity checking and incrementing to the external
`semver` package (`semver.valid` / `semver.inc`), whose code is not part of
this repository.  Those two operations are therefore modelled from the
spec: "patch increments the third number and resets nothing further; minor
increments the second number and resets patch to 0; major increments the
first number and resets minor and patch to 0", over syntactically valid
`major.minor.patch` versions (three non-empty runs of decimal digits
separated by dots). -/

/-- Split a character list at every `'.'` (like `"a.b.c".split(".")`). -/
def splitOnDot : List Char → List (List Char)
  | [] => [[]]
  | c :: r =>
    let rest := splitOnDot r
    if c = '.' then [] :: rest
    else
      match rest with
      | h :: t => (c :: h) :: t
      | [] => [[c]]

/-- A non-empty all-digit character run. -/
def allDigits (l : List Char) : Bool := !l.isEmpty && l.all Char.isDigit

/-- Numeric value of a digit run. -/
def digitsToNat (l : List Char) : Nat :=
  l.foldl (fun a c => a * 10 + (c.toNat - 48)) 0

/-- Modelled from the spec: parser for the `semver` package's notion of a
syntactically valid `major.minor.patch` version (core versions; the spec
describes only the three-number form). -/
def parseSemVer (s : String) : Option (Nat × Nat × Nat) :=
  match splitOnDot s.data with
  | [a, b, c] =>
    if allDigits a && allDigits b && allDigits c then
      some (digitsToNat a, digitsToNat b, digitsToNat c)
    else none
  | _ => none

/-- Modelled from the spec: `semver.valid` succeeds exactly on parseable
versions. -/
def semverValid (s : String) : Bool := (parseSemVer s).isSome

/-- Render a version triple back to a string. -/
def renderSemVer (a b c : Nat) : String :=
  toString a ++ "." ++ toString b ++ "." ++ toString c

/-- The three bump modes of `BuildPublishConfig.bump`. -/
inductive BumpMode | autoPatch | autoMinor | autoMajor
deriving DecidableEq, Repr

/-- semver release types used by the source's `releaseTypeMap`. -/
inductive ReleaseType | patch | minor | major
deriving DecidableEq, Repr

/-- `releaseTypeMap` from `autoIncrementVersion` (`sdk-mod.ts` 603-607). -/
def releaseTypeMap : BumpMode → ReleaseType
  | .autoPatch => .patch
  | .autoMinor => .minor
  | .autoMajor => .major

/-- Modelled from the spec: `semver.inc` — the standard increment on core
versions (patch bumps the third number; minor bumps the second and resets
patch; major bumps the first and resets minor and patch). -/
def semverInc (s : String) (r : ReleaseType) : Option String :=
  (parseSemVer s).map fun v =>
    match r with
    | .patch => renderSemVer v.1 v.2.1 (v.2.2 + 1)
    | .minor => renderSemVer v.1 (v.2.1 + 1) 0
    | .major => renderSemVer (v.1 + 1) 0 0

/-- `autoIncrementVersion` (`sdk-mod.ts` 592-614): validates the old
version, then increments it according to the bump mode; a thrown `Error` is
modelled as `Except.error`. -/
def autoIncrementVersion (oldVersion : String) (mode : BumpMode) :
    Except String String :=
  if !semverValid oldVersion then
    .error ("Can't auto-increment invalid version: " ++ oldVersion)
  else
    match semverInc oldVersion (releaseTypeMap mode) with
    | none => .error ("semver.inc failed for " ++ oldVersion)
    | some v => .ok v

/-! ## C2 — template-string escaping (`escapeTemplateString` /
`unescapeTemplateString`, `pack/cmd.ts` lines 56-73)

Each `.replace(/pat/g, repl)` pass over a literal pattern is embedded as a
left-to-right scan replacing leftmost, non-overlapping occurrences; the
passes are composed in source order.  Special characters are written with
`\xNN` escapes: `\x60` backtick, `\x7b` `{`, `\x7d` `}`, `\x27` quote. -/

/-- Pass 1 of `escapeTemplateString`: a backtick becomes backslash
backtick. -/
def escBacktick : List Char → List Char
  | [] => []
  | c :: r =>
    if c = '\x60' then '\\' :: '\x60' :: escBacktick r
    else c :: escBacktick r

/-- Pass 2: an already-escaped dollar-brace (backslash, `$`, `{`) becomes
the private-use form backslash `u0024` `{`. -/
def escEscapedDollarBrace : List Char → List Char
  | [] => []
  | [c] => [c]
  | [c, d] => [c, d]
  | c :: d :: e :: r =>
    if c = '\\' ∧ d = '$' ∧ e = '\x7b' then
      '\\' :: 'u' :: '0' :: '0' :: '2' :: '4' :: '\x7b' ::
        escEscapedDollarBrace r
    else c :: escEscapedDollarBrace (d :: e :: r)

/-- Pass 3: a remaining `$` `{` pair gains a leading backslash. -/
def escDollarBrace : List Char → List Char
  | [] => []
  | [c] => [c]
  | c :: d :: r =>
    if c = '$' ∧ d = '\x7b' then '\\' :: '$' :: '\x7b' :: escDollarBrace r
    else c :: escDollarBrace (d :: r)

/-- Pass 4: backslash before a double open brace is dropped. -/
def escOpenBraces : List Char → List Char
  | [] => []
  | [c] => [c]
  | [c, d] => [c, d]
  | c :: d :: e :: r =>
    if c = '\\' ∧ d = '\x7b' ∧ e = '\x7b' then
      '\x7b' :: '\x7b' :: escOpenBraces r
    else c :: escOpenBraces (d :: e :: r)

/-- Pass 5: backslash before a double close brace is dropped. -/
def escCloseBraces : List Char → List Char
  | [] => []
  | [c] => [c]
  | [c, d] => [c, d]
  | c :: d :: e :: r =>
    if c = '\\' ∧ d = '\x7d' ∧ e = '\x7d' then
      '\x7d' :: '\x7d' :: escCloseBraces r
    else c :: escCloseBraces (d :: e :: r)

/-- Pass 6: `\r?\n` (a line feed, optionally preceded by a carriage
return) becomes the two characters backslash `n`. -/
def escNewlines : List Char → List Char
  | [] => []
  | [c] => if c = '\n' then ['\\', 'n'] else [c]
  | c :: d :: r =>
    if c = '\r' ∧ d = '\n' then '\\' :: 'n' :: escNewlines r
    else if c = '\n' then '\\' :: 'n' :: escNewlines (d :: r)
    else c :: escNewlines (d :: r)

/-- `escapeTemplateString` (`pack/cmd.ts` 56-66): the six replacement
passes in source order. -/
def escapeTemplateString (s : String) : String :=
  ⟨escNewlines (escCloseBraces (escOpenBraces (escDollarBrace
    (escEscapedDollarBrace (escBacktick s.data)))))⟩

/-- Unescape pass 1: backslash `n` becomes a line feed. -/
def unEscNewlines : List Char → List Char
  | [] => []
  | [c] => [c]
  | c :: d :: r =>
    if c = '\\' ∧ d = 'n' then '\n' :: unEscNewlines r
    else c :: unEscNewlines (d :: r)

/-- Unescape pass 2: the private-use form backslash `u0024` `{` becomes
backslash `$` `{`. -/
def unEscUnicodeDollar : List Char → List Char
  | [] => []
  | [a] => [a]
  | [a, b] => [a, b]
  | [a, b, c] => [a, b, c]
  | [a, b, c, d] => [a, b, c, d]
  | [a, b, c, d, e] => [a, b, c, d, e]
  | [a, b, c, d, e, f] => [a, b, c, d, e, f]
  | a :: b :: c :: d :: e :: f :: g :: r =>
    if a = '\\' ∧ b = 'u' ∧ c = '0' ∧ d = '0' ∧ e = '2' ∧ f = '4' ∧
        g = '\x7b' then
      '\\' :: '$' :: '\x7b' :: unEscUnicodeDollar r
    else a :: unEscUnicodeDollar (b :: c :: d :: e :: f :: g :: r)

/-- Unescape pass 3: two backslashes followed by a backtick become a
backtick. -/
def unEscBacktick : List Char → List Char
  | [] => []
  | [c] => [c]
  | [c, d] => [c, d]
  | c :: d :: e :: r =>
    if c = '\\' ∧ d = '\\' ∧ e = '\x60' then '\x60' :: unEscBacktick r
    else c :: unEscBacktick (d :: e :: r)

/-- Unescape pass 4: two backslashes become one. -/
def unEscBackslash : List Char → List Char
  | [] => []
  | [c] => [c]
  | c :: d :: r =>
    if c = '\\' ∧ d = '\\' then '\\' :: unEscBackslash r
    else c :: unEscBackslash (d :: r)

/-- `unescapeTemplateString` (`pack/cmd.ts` 68-73): the four replacement
passes in source order. -/
def unescapeTemplateString (s : String) : String :=
  ⟨unEscBackslash (unEscBacktick (unEscUnicodeDollar
    (unEscNewlines s.data)))⟩

/-- No `$` immediately followed by `{` anywhere in the list. -/
def dollarBraceFree : List Char → Bool
  | [] => true
  | [_] => true
  | c :: d :: r =>
    if c = '$' ∧ d = '\x7b' then false else dollarBraceFree (d :: r)

example : autoIncrementVersion "1.2.3" .autoPatch = .ok "1.2.4" := by rfl
example : autoIncrementVersion "1.2.3" .autoMinor = .ok "1.3.0" := by rfl
example : autoIncrementVersion "1.2.3" .autoMajor = .ok "2.0.0" := by rfl
example : semverValid "not-a-version" = false := by decide
example :
    unescapeTemplateString (escapeTemplateString "`") = "\\`" := by decide
example :
    unescapeTemplateString (escapeTemplateString "a\r\nb") = "a\nb" := by
  decide
example :
    unescapeTemplateString (escapeTemplateString "a$\x7bb") = "a\\$\x7bb" := by
  decide

/-! ## C1 / C2 supporting lemmas -/

theorem escBacktick_id (l : List Char) (h : '\x60' ∉ l) :
    escBacktick l = l := by
  induction l with
  | nil => rfl
  | cons c r ih =>
    have hc : c ≠ '\x60' := fun e => h (by simp [e])
    have hr : '\x60' ∉ r := fun m => h (List.mem_cons_of_mem _ m)
    rw [escBacktick, if_neg hc, ih hr]

theorem escEscapedDollarBrace_id (l : List Char) (h : '\\' ∉ l) :
    escEscapedDollarBrace l = l := by
  induction l using escEscapedDollarBrace.induct with
  | case1 => rfl
  | case2 c => rfl
  | case3 c d => rfl
  | case4 c d e r hp ih =>
    exact absurd (hp.1 ▸ List.mem_cons_self _ _) h
  | case5 c d e r hp ih =>
    have hr : '\\' ∉ d :: e :: r := fun m => h (List.mem_cons_of_mem _ m)
    rw [escEscapedDollarBrace, if_neg hp, ih hr]

theorem escDollarBrace_id (l : List Char) (h : dollarBraceFree l = true) :
    escDollarBrace l = l := by
  induction l using escDollarBrace.induct with
  | case1 => rfl
  | case2 c => rfl
  | case3 c d r hp ih =>
    rw [dollarBraceFree, if_pos hp] at h
    exact absurd h (by simp)
  | case4 c d r hp ih =>
    rw [dollarBraceFree, if_neg hp] at h
    rw [escDollarBrace, if_neg hp, ih h]

theorem escOpenBraces_id (l : List Char) (h : '\\' ∉ l) :
    escOpenBraces l = l := by
  induction l using escOpenBraces.induct with
  | case1 => rfl
  | case2 c => rfl
  | case3 c d => rfl
  | case4 c d e r hp ih =>
    exact absurd (hp.1 ▸ List.mem_cons_self _ _) h
  | case5 c d e r hp ih =>
    have hr : '\\' ∉ d :: e :: r := fun m => h (List.mem_cons_of_mem _ m)
    rw [escOpenBraces, if_neg hp, ih hr]

theorem escCloseBraces_id (l : List Char) (h : '\\' ∉ l) :
    escCloseBraces l = l := by
  induction l using escCloseBraces.induct with
  | case1 => rfl
  | case2 c => rfl
  | case3 c d => rfl
  | case4 c d e r hp ih =>
    exact absurd (hp.1 ▸ List.mem_cons_self _ _) h
  | case5 c d e r hp ih =>
    have hr : '\\' ∉ d :: e :: r := fun m => h (List.mem_cons_of_mem _ m)
    rw [escCloseBraces, if_neg hp, ih hr]

theorem unEscUnicodeDollar_id (l : List Char) (h : '\\' ∉ l) :
    unEscUnicodeDollar l = l := by
  induction l using unEscUnicodeDollar.induct with
  | case1 => rfl
  | case2 a => rfl
  | case3 a b => rfl
  | case4 a b c => rfl
  | case5 a b c d => rfl
  | case6 a b c d e => rfl
  | case7 a b c d e f => rfl
  | case8 a b c d e f g r hp ih =>
    exact absurd (hp.1 ▸ List.mem_cons_self _ _) h
  | case9 a b c d e f g r hp ih =>
    have hr : '\\' ∉ b :: c :: d :: e :: f :: g :: r :=
      fun m => h (List.mem_cons_of_mem _ m)
    rw [unEscUnicodeDollar, if_neg hp, ih hr]

theorem unEscBacktick_id (l : List Char) (h : '\\' ∉ l) :
    unEscBacktick l = l := by
  induction l using unEscBacktick.induct with
  | case1 => rfl
  | case2 c => rfl
  | case3 c d => rfl
  | case4 c d e r hp ih =>
    exact absurd (hp.1 ▸ List.mem_cons_self _ _) h
  | case5 c d e r hp ih =>
    have hr : '\\' ∉ d :: e :: r := fun m => h (List.mem_cons_of_mem _ m)
    rw [unEscBacktick, if_neg hp, ih hr]

theorem unEscBackslash_id (l : List Char) (h : '\\' ∉ l) :
    unEscBackslash l = l := by
  induction l using unEscBackslash.induct with
  | case1 => rfl
  | case2 c => rfl
  | case3 c d r hp ih =>
    exact absurd (hp.1 ▸ List.mem_cons_self _ _) h
  | case4 c d r hp ih =>
    have hr : '\\' ∉ d :: r := fun m => h (List.mem_cons_of_mem _ m)
    rw [unEscBackslash, if_neg hp, ih hr]

theorem unEscNewlines_cons (c : Char) (X : List Char) (hc : c ≠ '\\') :
    unEscNewlines (c :: X) = c :: unEscNewlines X := by
  cases X with
  | nil => rfl
  | cons x xs =>
    rw [unEscNewlines, if_neg (fun hp => hc hp.1)]

theorem unEscNewlines_escNewlines (l : List Char)
    (hbs : '\\' ∉ l) (hcr : '\r' ∉ l) :
    unEscNewlines (escNewlines l) = l := by
  induction l using escNewlines.induct with
  | case1 => rfl
  | case2 => rfl
  | case3 c hc =>
    rw [escNewlines, if_neg hc]
    exact unEscNewlines_cons c [] (fun e => hbs (by simp [e]))
  | case4 c d r hp ih =>
    exact absurd (hp.1 ▸ List.mem_cons_self _ _) hcr
  | case5 d r hp ih =>
    have hr1 : '\\' ∉ d :: r := fun m => hbs (List.mem_cons_of_mem _ m)
    have hr2 : '\r' ∉ d :: r := fun m => hcr (List.mem_cons_of_mem _ m)
    rw [escNewlines, if_neg hp, if_pos rfl, unEscNewlines,
      if_pos ⟨rfl, rfl⟩, ih hr1 hr2]
  | case6 c d r hp hc ih =>
    have hr1 : '\\' ∉ d :: r := fun m => hbs (List.mem_cons_of_mem _ m)
    have hr2 : '\r' ∉ d :: r := fun m => hcr (List.mem_cons_of_mem _ m)
    rw [escNewlines, if_neg hp, if_neg hc,
      unEscNewlines_cons c _ (fun e => hbs (by simp [e])), ih hr1 hr2]

/-! ## C1 / C2 claim theorems -/

/-- C1: for every syntactically valid `major.minor.patch` version,
`autoIncrementVersion` performs the standard semver increment for each of
the three bump modes, and for every syntactically invalid version it throws
(returns an error) rather than silently returning a default. -/
theorem autoIncrementVersion_correct :
    (∀ v a b c, parseSemVer v = some (a, b, c) →
      autoIncrementVersion v .autoPatch = .ok (renderSemVer a b (c + 1)) ∧
      autoIncrementVersion v .autoMinor = .ok (renderSemVer a (b + 1) 0) ∧
      autoIncrementVersion v .autoMajor = .ok (renderSemVer (a + 1) 0 0)) ∧
    (∀ v mode, parseSemVer v = none →
      autoIncrementVersion v mode =
        .error ("Can't auto-increment invalid version: " ++ v)) := by
  constructor
  · intro v a b c h
    refine ⟨?_, ?_, ?_⟩ <;>
      simp [autoIncrementVersion, semverValid, semverInc, releaseTypeMap, h]
  · intro v mode h
    simp [autoIncrementVersion, semverValid, h]

/-- Witness for C1 at the spec's concrete inputs: `1.2.3` bumps to
`1.2.4` / `1.3.0` / `2.0.0`, and `not-a-version` fails with an error. -/
theorem autoIncrementVersion_correct_witness :
    autoIncrementVersion "1.2.3" .autoPatch = .ok "1.2.4" ∧
    autoIncrementVersion "1.2.3" .autoMinor = .ok "1.3.0" ∧
    autoIncrementVersion "1.2.3" .autoMajor = .ok "2.0.0" ∧
    autoIncrementVersion "not-a-version" .autoPatch =
      .error ("Can't auto-increment invalid version: " ++ "not-a-version") := by
  have h1 := autoIncrementVersion_correct.1 "1.2.3" 1 2 3 (by rfl)
  have h2 := autoIncrementVersion_correct.2 "not-a-version" .autoPatch (by rfl)
  exact ⟨h1.1.trans (by rfl), h1.2.1.trans (by rfl),
    h1.2.2.trans (by rfl), h2⟩

/-- C2 counterexample: the escape/unescape pair is not an inverse on every
string — a lone backtick escapes to backslash-backtick, which
`unescapeTemplateString` does not map back. -/
theorem escapeRoundTrip_counterexample :
    ¬ (unescapeTemplateString (escapeTemplateString "`") = "`") := by decide

/-- C2 (amended): the round trip `unescapeTemplateString ∘
escapeTemplateString` is the identity on strings that contain no backslash,
no backtick, no carriage return, and no dollar-open-brace sequence; such
strings may freely contain newlines, double-brace tag sequences and `$`
signs.  (A backtick breaks the round trip — see the counterexample —, a
backslash-`n` pair collapses to a newline, a CRLF collapses to LF, and an
escaped `${` stays escaped.) -/
theorem escapeRoundTrip_amended (s : String)
    (hbs : '\\' ∉ s.data) (hbt : '\x60' ∉ s.data) (hcr : '\r' ∉ s.data)
    (hdb : dollarBraceFree s.data = true) :
    unescapeTemplateString (escapeTemplateString s) = s := by
  have hesc : escapeTemplateString s = ⟨escNewlines s.data⟩ := by
    unfold escapeTemplateString
    rw [escBacktick_id _ hbt, escEscapedDollarBrace_id _ hbs,
      escDollarBrace_id _ hdb, escOpenBraces_id _ hbs,
      escCloseBraces_id _ hbs]
  rw [hesc]
  unfold unescapeTemplateString
  show String.mk _ = s
  rw [unEscNewlines_escNewlines _ hbs hcr, unEscUnicodeDollar_id _ hbs,
    unEscBacktick_id _ hbs, unEscBackslash_id _ hbs]

/-- Witness for the amended C2 on a concrete string containing a newline,
double braces and a dollar sign. -/
theorem escapeRoundTrip_amended_witness :
    unescapeTemplateString
        (escapeTemplateString "hello\nworld \x7b\x7bx\x7d\x7d $price") =
      "hello\nworld \x7b\x7bx\x7d\x7d $price" :=
  escapeRoundTrip_amended _ (by decide) (by decide) (by decide) (by decide)

/-! ## C4 — bump/publish gating (`bumpHandler` `sdk-mod.ts` 660-721,
`relidler` step 5 at 4450-4452, publish gates at 1690-1694 / 4128,
dev-mode forcing at 168-175) -/

/-- The configuration flags relevant to bump/publish gating. -/
structure RunFlags where
  disableBump : Bool
  pausePublish : Bool
  bump : BumpMode

/-- `getConfigWithCliFlags` (`sdk-mod.ts` 168-175): development mode always
forces `pausePublish` and `disableBump` to `true`. -/
def effectiveConfig (cfg : RunFlags) (isDev : Bool) : RunFlags :=
  if isDev then { cfg with disableBump := true, pausePublish := true }
  else cfg

/-- Outcome of the version-bump step. -/
inductive BumpOutcome
  | skippedByFlags
  | noBumpNeeded
  | bumped (newVer : String)
deriving DecidableEq, Repr

/-- `bumpHandler` (`sdk-mod.ts` 660-721), auto-increment path (no explicit
`--bump` flag): the bump is skipped whenever `disableBump` or
`pausePublish` is set; otherwise the old version is validated and
auto-incremented. -/
def bumpHandler (cfg : RunFlags) (isDev : Bool) (oldVersion : String) :
    Except String BumpOutcome :=
  let config := effectiveConfig cfg isDev
  if config.disableBump || config.pausePublish then .ok .skippedByFlags
  else if !semverValid oldVersion then
    .error ("Invalid existing version in package.json: " ++ oldVersion)
  else
    match autoIncrementVersion oldVersion config.bump with
    | .error e => .error e
    | .ok inc =>
      if oldVersion = inc then .ok .noBumpNeeded else .ok (.bumped inc)

/-- `relidler` step 5 (`sdk-mod.ts` 4450-4452): `bumpHandler` is invoked
only when the effective `disableBump` is false. -/
def relidlerBumpOutcome (cfg : RunFlags) (isDev : Bool)
    (oldVersion : String) : Except String BumpOutcome :=
  let config := effectiveConfig cfg isDev
  if !config.disableBump then bumpHandler cfg isDev oldVersion
  else .ok .skippedByFlags

/-- Publish gate (`sdk-mod.ts` 1690-1694 for the main project, 4128 for
libraries): the publish command runs only outside development mode and only
when `pausePublish` is false. -/
def publishStepRuns (cfg : RunFlags) (isDev : Bool) : Bool :=
  !isDev && !(effectiveConfig cfg isDev).pausePublish

/-- C4 counterexample: with `disableBump = false` and `pausePublish = true`
the claim demands that a build cycle still performs the version bump, but
the code skips it (`bumpHandler` returns early because `pausePublish` is
set), so the outcome is `skippedByFlags` and not a bump. -/
theorem bumpSkipped_counterexample :
    relidlerBumpOutcome ⟨false, true, .autoPatch⟩ false "1.2.3" =
        .ok .skippedByFlags ∧
    relidlerBumpOutcome ⟨false, true, .autoPatch⟩ false "1.2.3" ≠
        .ok (.bumped "1.2.4") := by
  constructor
  · rfl
  · intro h
    rw [show relidlerBumpOutcome ⟨false, true, .autoPatch⟩ false "1.2.3" =
        .ok .skippedByFlags from rfl] at h
    exact absurd (Except.ok.inj h) (by simp)

/-- C4 (amended): in a non-development run the version-bump step is
performed (not flag-skipped) exactly when both `disableBump` and
`pausePublish` are false — `pausePublish = true` also skips the bump — and
the publish step runs exactly when `pausePublish` is false. -/
theorem bumpAndPublishGating (cfg : RunFlags) (oldVersion : String) :
    (relidlerBumpOutcome cfg false oldVersion ≠ .ok .skippedByFlags ↔
      cfg.disableBump = false ∧ cfg.pausePublish = false) ∧
    publishStepRuns cfg false = !cfg.pausePublish := by
  obtain ⟨db, pp, bm⟩ := cfg
  constructor
  · cases db <;> cases pp <;>
      simp [relidlerBumpOutcome, bumpHandler, effectiveConfig, publishStepRuns]
    by_cases hv : semverValid oldVersion
    · cases h : autoIncrementVersion oldVersion bm with
      | error e => simp [hv, h]
      | ok inc =>
        by_cases he : oldVersion = inc
        · subst he
          simp [hv, h]
        · simp [hv, h, he]
    · simp [hv]
  · simp [publishStepRuns, effectiveConfig]

/-! ## C5 — scoped working-directory restoration (`withWorkingDirectory`,
`sdk-mod.ts` 340-358; `library_pubToJsr`, 3819-3848)

The process working directory is the single piece of mutable shared state;
an async computation over it is modelled as a state-and-exception function
`CwdM`.  `try`/`catch`/`finally` are modelled by their JavaScript
semantics: the `finally` block runs on every exit path, and the `catch`
block logs and rethrows (observationally the identity). -/

/-- A computation that may read/write the process working directory and
may throw. -/
def CwdM (α : Type) : Type := String → Except String α × String

/-- Pure computation: no state change, no error. -/
def cwdPure {α : Type} (a : α) : CwdM α := fun s => (.ok a, s)

/-- Sequencing: on error the rest is skipped (exception propagation). -/
def cwdBind {α β : Type} (m : CwdM α) (f : α → CwdM β) : CwdM β := fun s =>
  match m s with
  | (.ok a, s1) => f a s1
  | (.error e, s1) => (.error e, s1)

/-- `process.cwd()`. -/
def getCwd : CwdM String := fun s => (.ok s, s)

/-- `process.chdir(d)`. -/
def chdir (d : String) : CwdM Unit := fun _ => (.ok (), d)

/-- `try body finally fin`: `fin` runs whether `body` returned or threw;
its result (or error) supersedes only if `fin` itself throws. -/
def cwdTryFinally {α : Type} (body : CwdM α) (f : CwdM Unit) : CwdM α :=
  fun s =>
    let p := body s
    let q := f p.2
    match q.1 with
    | .ok _ => (p.1, q.2)
    | .error e => (.error e, q.2)

/-- `catch` that logs the error and rethrows (`sdk-mod.ts` 351-353):
observationally the identity. -/
def cwdTryCatchRethrow {α : Type} (body : CwdM α) : CwdM α := body

/-- `withWorkingDirectory` (`sdk-mod.ts` 340-358): remember the original
directory, change into the target, run the inner action, and restore the
original directory in a `finally` block. -/
def withWorkingDirectory {α : Type} (targetDir : String) (fn : CwdM α) :
    CwdM α :=
  cwdBind getCwd fun originalDir =>
    cwdTryFinally (cwdTryCatchRethrow (cwdBind (chdir targetDir) fun _ => fn))
      (chdir originalDir)

/-- `library_pubToJsr` (`sdk-mod.ts` 3819-3848): in development mode the
publish is skipped; otherwise the publish command runs scoped to the
library output directory.  The external `runCommand` invocation is the
`publishCmd` parameter. -/
def library_pubToJsr (libOutDir : String) (publishCmd : CwdM Unit)
    (isDev : Bool) : CwdM Unit :=
  if isDev then cwdPure () else withWorkingDirectory libOutDir publishCmd

/-- C5: for every target directory and inner action,
`withWorkingDirectory` restores the working directory to its prior value on
every exit path (normal return or thrown error) while passing the inner
action's result or error through, and consequently every publish invocation
(`library_pubToJsr`) leaves the working directory as it found it. -/
theorem withWorkingDirectory_restores :
    (∀ (α : Type) (targetDir : String) (fn : CwdM α) (cwd0 : String),
      (withWorkingDirectory targetDir fn cwd0).2 = cwd0 ∧
      (withWorkingDirectory targetDir fn cwd0).1 = (fn targetDir).1) ∧
    (∀ (libOutDir : String) (publishCmd : CwdM Unit) (isDev : Bool)
        (cwd0 : String),
      (library_pubToJsr libOutDir publishCmd isDev cwd0).2 = cwd0) := by
  have key : ∀ (α : Type) (targetDir : String) (fn : CwdM α)
      (cwd0 : String),
      (withWorkingDirectory targetDir fn cwd0).2 = cwd0 ∧
      (withWorkingDirectory targetDir fn cwd0).1 = (fn targetDir).1 := by
    intro α targetDir fn cwd0
    unfold withWorkingDirectory cwdBind getCwd chdir cwdTryFinally
      cwdTryCatchRethrow
    rcases h : fn targetDir with ⟨r, s1⟩
    cases r <;> simp [h]
  refine ⟨key, ?_⟩
  intro libOutDir publishCmd isDev cwd0
  cases isDev with
  | true => rfl
  | false => exact (key Unit libOutDir publishCmd cwd0).1

/-! ## C8 — distribution-name derivation (`determineDistName`,
`sdk-mod.ts` 1205-1235) -/

/-- A path separator as accepted by the source's `[/\\]` character
classes. -/
def isSlash (c : Char) : Bool := c = '/' || c = '\\'

/-- One attempt of the regex `[/\\]libs[/\\]([^/\\]+)` at the head of the
list: a slash, the literal `libs`, a slash, then a non-empty capture of
non-slash characters. -/
def libsCapAt : List Char → Option (List Char)
  | c1 :: c2 :: c3 :: c4 :: c5 :: c6 :: rest =>
    if isSlash c1 && c2 = 'l' && c3 = 'i' && c4 = 'b' && c5 = 's' &&
        isSlash c6 then
      let cap := rest.takeWhile fun ch => !isSlash ch
      if cap.isEmpty then none else some cap
    else none
  | _ => none

/-- `libPathRegex.exec(filePath)` (`sdk-mod.ts` 1224-1226): the first
position at which the pattern matches, returning its capture group. -/
def findLibName : List Char → Option (List Char)
  | [] => none
  | c :: r =>
    match libsCapAt (c :: r) with
    | some cap => some cap
    | none => findLibName r

/-- `determineDistName` (`sdk-mod.ts` 1205-1235).  `isJsr` is
`boolean | ""` in the source; the empty string is modelled as `none`. -/
def determineDistName (filePath : String) (isJsr : Option Bool) : String :=
  match isJsr with
  | none => "root"
  | some jsr =>
    let baseDistName := if jsr then "dist-jsr" else "dist-npm"
    let isLibraryPath :=
      strIncludes filePath "/libs/" || strIncludes filePath "\\libs\\"
    if !isLibraryPath then baseDistName
    else
      match findLibName filePath.data with
      | none => baseDistName
      | some libName =>
        if jsr then "dist-libs/" ++ String.mk libName ++ "/jsr"
        else "dist-libs/" ++ String.mk libName ++ "/npm"

theorem hasInfix_of_prefix (pat l : List Char)
    (h : pat.isPrefixOf l = true) : hasInfix pat l = true := by
  cases l with
  | nil =>
    cases pat with
    | nil => rfl
    | cons c r => simp [List.isPrefixOf] at h
  | cons c r =>
    rw [hasInfix, h]
    rfl

theorem hasInfix_cons (pat l : List Char) (c : Char)
    (h : hasInfix pat l = true) : hasInfix pat (c :: l) = true := by
  rw [hasInfix, h]
  simp

theorem hasInfix_of_append (pat a b : List Char) :
    hasInfix pat (a ++ pat ++ b) = true := by
  induction a with
  | nil =>
    simp only [List.nil_append]
    exact hasInfix_of_prefix _ _
      (List.isPrefixOf_iff_prefix.mpr (List.prefix_append pat b))
  | cons c a2 ih =>
    simp only [List.cons_append]
    exact hasInfix_cons _ _ _ (by simpa using ih)

theorem findLibName_skip (pre rest : List Char)
    (h : ∀ p, p < pre.length → libsCapAt ((pre ++ rest).drop p) = none) :
    findLibName (pre ++ rest) = findLibName rest := by
  induction pre with
  | nil => rfl
  | cons c pre2 ih =>
    have h0 := h 0 (Nat.succ_pos _)
    simp only [List.drop_zero, List.cons_append] at h0
    rw [List.cons_append, findLibName, h0]
    exact ih (fun p hp => by
      have := h (p + 1) (Nat.succ_lt_succ hp)
      simpa using this)

theorem takeWhile_all_append (name : List Char) (post : List Char)
    (hname : ∀ c ∈ name, isSlash c = false) :
    (name ++ '/' :: post).takeWhile (fun ch => !isSlash ch) = name := by
  induction name with
  | nil => simp [isSlash]
  | cons c r ih =>
    have hc := hname c (List.mem_cons_self _ _)
    simp [List.takeWhile_cons, hc,
      ih (fun d hd => hname d (List.mem_cons_of_mem _ hd))]

theorem libsCapAt_head (name post : List Char) (hne : name ≠ [])
    (hns : ∀ c ∈ name, isSlash c = false) :
    libsCapAt ('/' :: 'l' :: 'i' :: 'b' :: 's' :: '/' ::
      (name ++ '/' :: post)) = some name := by
  rw [libsCapAt, if_pos (by decide), takeWhile_all_append name post hns]
  cases name with
  | nil => exact absurd rfl hne
  | cons a b => rfl

/-- C8: a path whose first `libs` segment is `/libs/<name>/` derives
`dist-libs/<name>/jsr` for `isJsr = true` and `dist-libs/<name>/npm` for
`isJsr = false`; a path with no `libs` segment derives `dist-jsr` /
`dist-npm`; the empty-string `isJsr` derives `root` regardless of the
path. -/
theorem determineDistName_correct :
    (∀ (filePath : String) (pre name post : List Char) (jsr : Bool),
      filePath.data = pre ++ "/libs/".data ++ name ++ '/' :: post →
      name ≠ [] →
      (∀ c ∈ name, isSlash c = false) →
      (∀ p, p < pre.length → libsCapAt (filePath.data.drop p) = none) →
      determineDistName filePath (some jsr) =
        if jsr then "dist-libs/" ++ String.mk name ++ "/jsr"
        else "dist-libs/" ++ String.mk name ++ "/npm") ∧
    (∀ (filePath : String) (jsr : Bool),
      strIncludes filePath "/libs/" = false →
      strIncludes filePath "\\libs\\" = false →
      determineDistName filePath (some jsr) =
        if jsr then "dist-jsr" else "dist-npm") ∧
    (∀ filePath : String, determineDistName filePath none = "root") := by
  refine ⟨?_, ?_, ?_⟩
  · intro filePath pre name post jsr hdata hne hns hskip
    have hassoc : filePath.data =
        pre ++ ("/libs/".data ++ (name ++ '/' :: post)) := by
      rw [hdata]
      simp
    have hinc : strIncludes filePath "/libs/" = true := by
      show hasInfix "/libs/".data filePath.data = true
      rw [hdata]
      have : pre ++ "/libs/".data ++ name ++ '/' :: post =
          pre ++ "/libs/".data ++ (name ++ '/' :: post) := by simp
      rw [this]
      exact hasInfix_of_append "/libs/".data pre (name ++ '/' :: post)
    have hfind : findLibName filePath.data = some name := by
      rw [hassoc]
      rw [findLibName_skip pre _ (by
        intro p hp
        have := hskip p hp
        rw [hassoc] at this
        exact this)]
      show findLibName ('/' :: 'l' :: 'i' :: 'b' :: 's' :: '/' ::
        (name ++ '/' :: post)) = some name
      rw [findLibName, libsCapAt_head name post hne hns]
    unfold determineDistName
    rw [hinc, hfind]
    rfl
  · intro filePath jsr h1 h2
    unfold determineDistName
    rw [h1, h2]
    rfl
  · intro filePath
    rfl

/-- Witness for C8 at the spec's concrete inputs. -/
theorem determineDistName_correct_witness :
    determineDistName "src/libs/cfg/cfg-mod.ts" (some true) =
        "dist-libs/cfg/jsr" ∧
    determineDistName "src/index.ts" (some false) = "dist-npm" ∧
    determineDistName "src/index.ts" none = "root" := by
  refine ⟨?_, ?_, ?_⟩
  · exact determineDistName_correct.1 "src/libs/cfg/cfg-mod.ts" "src".data
      "cfg".data "cfg-mod.ts".data true (by decide) (by decide) (by decide)
      (by decide)
  · exact determineDistName_correct.2.1 "src/index.ts" false (by decide)
      (by decide)
  · exact determineDistName_correct.2.2 "src/index.ts"

/-! ## C6 — per-library dependency modes (`getLibDependencies`
`sdk-mod.ts` 925-1024, `filterDeps` 820-915)

Dependency records (`Record<string, string>`) are embedded as association
lists in insertion order; the JavaScript `reduce` that re-builds the record
appends each kept entry.  The usage scan of `filterDeps` (a glob over the
built output plus an import regex) is abstracted as the `usedPackages` set
it produces; `isDev` models the source's identity test
`deps === originalPkg.devDependencies`. -/

/-- `excludeMode` configuration values. -/
inductive ExcludeMode | patternsOnly | patternsAndDevdeps
deriving DecidableEq, Repr

/-- `shouldExcludeByPattern` (`sdk-mod.ts` 840-844): case-insensitive
substring match of any configured pattern against the dependency name. -/
def shouldExcludeByPattern (excludedPatterns : List String)
    (depName : String) : Bool :=
  excludedPatterns.any fun pat => strIncludes (strLower depName) (strLower pat)

/-- `shouldExcludeDep` (`sdk-mod.ts` 850-860). -/
def shouldExcludeDep (excludeMode : ExcludeMode)
    (excludedPatterns : List String) (depName : String) (isDev : Bool) :
    Bool :=
  match excludeMode with
  | .patternsOnly => shouldExcludeByPattern excludedPatterns depName
  | .patternsAndDevdeps => isDev || shouldExcludeByPattern excludedPatterns depName

/-- `filterDeps` (`sdk-mod.ts` 820-915): without `clearUnused`, keep every
non-excluded dependency; with `clearUnused`, keep only dependencies that
are both used and not excluded. -/
def filterDeps (deps : List (String × String)) (clearUnused : Bool)
    (usedPackages : List String) (isDev : Bool)
    (excludeMode : ExcludeMode) (excludedPatterns : List String) :
    List (String × String) :=
  if !clearUnused then
    deps.foldl (fun acc kv =>
      if !shouldExcludeDep excludeMode excludedPatterns kv.1 isDev then
        acc ++ [kv]
      else acc) []
  else
    deps.foldl (fun acc kv =>
      if usedPackages.contains kv.1 &&
          !shouldExcludeDep excludeMode excludedPatterns kv.1 isDev then
        acc ++ [kv]
      else acc) []

/-- A `LibConfig.dependencies` field: `true`, a name list, or absent. -/
inductive LibDeps | all | only (names : List String)
deriving DecidableEq

/-- The per-library configuration (`libs` entry). -/
structure LibConfig where
  main : String
  dependencies : Option LibDeps := none

/-- `getLibDependencies` (`sdk-mod.ts` 925-1024): three modes — explicit
name list, all non-excluded dependencies, or usage-based filtering (also
used when the library has no config entry at all). -/
def getLibDependencies (libConfig : Option LibConfig)
    (originalDeps : Option (List (String × String)))
    (usedPackages : List String) (isDev : Bool)
    (excludeMode : ExcludeMode) (excludedPatterns : List String) :
    List (String × String) :=
  match originalDeps with
  | none => []
  | some deps =>
    match libConfig with
    | none =>
      filterDeps deps true usedPackages isDev excludeMode excludedPatterns
    | some lc =>
      match lc.dependencies with
      | some .all =>
        deps.foldl (fun acc kv =>
          let shouldExclude :=
            match excludeMode with
            | .patternsOnly => shouldExcludeByPattern excludedPatterns kv.1
            | .patternsAndDevdeps =>
              isDev || shouldExcludeByPattern excludedPatterns kv.1
          if !shouldExclude then acc ++ [kv] else acc) []
      | some (.only names) =>
        deps.foldl (fun acc kv =>
          if names.contains kv.1 then acc ++ [kv] else acc) []
      | none =>
        filterDeps deps true usedPackages isDev excludeMode excludedPatterns

theorem foldl_append_filter (p : String × String → Bool)
    (l : List (String × String)) (acc : List (String × String)) :
    l.foldl (fun acc kv => if p kv then acc ++ [kv] else acc) acc =
      acc ++ l.filter p := by
  induction l generalizing acc with
  | nil => simp
  | cons kv r ih =>
    by_cases h : p kv = true <;>
      simp [List.filter_cons, h, ih]

/-- C6: the three per-library dependency modes.  With an explicit name
array the result is exactly the original dependencies whose names appear in
the array (usage is irrelevant); with `dependencies: true` it is every
original dependency not matching an exclusion pattern and, under the
`patterns-and-devdeps` mode, not a dev dependency; with no `dependencies`
field (or no library config entry) it is the usage-based filtering of the
original dependencies. -/
theorem getLibDependencies_modes (deps : List (String × String))
    (usedPackages : List String) (isDev : Bool)
    (excludeMode : ExcludeMode) (excludedPatterns : List String)
    (main : String) :
    (∀ names : List String,
      getLibDependencies (some ⟨main, some (.only names)⟩) (some deps)
          usedPackages isDev excludeMode excludedPatterns =
        deps.filter fun kv => names.contains kv.1) ∧
    (getLibDependencies (some ⟨main, some .all⟩) (some deps)
        usedPackages isDev excludeMode excludedPatterns =
      deps.filter fun kv =>
        !shouldExcludeByPattern excludedPatterns kv.1 &&
          !(decide (excludeMode = .patternsAndDevdeps) && isDev)) ∧
    (getLibDependencies (some ⟨main, none⟩) (some deps)
        usedPackages isDev excludeMode excludedPatterns =
      deps.filter fun kv =>
        usedPackages.contains kv.1 &&
          !shouldExcludeDep excludeMode excludedPatterns kv.1 isDev) ∧
    (getLibDependencies none (some deps)
        usedPackages isDev excludeMode excludedPatterns =
      deps.filter fun kv =>
        usedPackages.contains kv.1 &&
          !shouldExcludeDep excludeMode excludedPatterns kv.1 isDev) := by
  refine ⟨?_, ?_, ?_, ?_⟩
  · intro names
    show deps.foldl _ [] = _
    rw [foldl_append_filter (fun kv => names.contains kv.1) deps []]
    rfl
  · show deps.foldl _ [] = _
    cases excludeMode with
    | patternsOnly =>
      rw [foldl_append_filter
        (fun kv => !shouldExcludeByPattern excludedPatterns kv.1) deps []]
      simp
    | patternsAndDevdeps =>
      rw [foldl_append_filter
        (fun kv => !(isDev || shouldExcludeByPattern excludedPatterns kv.1))
        deps []]
      simp only [List.nil_append]
      apply List.filter_congr
      intro kv _
      cases isDev <;>
        cases h : shouldExcludeByPattern excludedPatterns kv.1 <;> simp [h]
  · show filterDeps deps true usedPackages isDev excludeMode
        excludedPatterns = _
    unfold filterDeps
    rw [if_neg (by simp)]
    rw [foldl_append_filter
      (fun kv => usedPackages.contains kv.1 &&
        !shouldExcludeDep excludeMode excludedPatterns kv.1 isDev) deps []]
    rfl
  · show filterDeps deps true usedPackages isDev excludeMode
        excludedPatterns = _
    unfold filterDeps
    rw [if_neg (by simp)]
    rw [foldl_append_filter
      (fun kv => usedPackages.contains kv.1 &&
        !shouldExcludeDep excludeMode excludedPatterns kv.1 isDev) deps []]
    rfl

example :
    getLibDependencies (some ⟨"src/libs/a/a-main.ts", some (.only ["a"])⟩)
        (some [("a", "1"), ("b", "2"), ("c", "3")]) [] false
        .patternsAndDevdeps [] = [("a", "1")] := by decide

/-! ## C9 / C10 — template unpack and file metadata (`restoreFile`
`pack/cmd.ts` 227-267, `getFileMetadata` 80-94, re-pack reuse condition
494-509)

The filesystem is a partial map from paths to file data (content and
modification time); directories (`fs.mkdir`) are not tracked.  `restoreFile`
takes the clock value `now` used as the mtime of fresh writes; the JSON
re-serialization performed for `type: "json"` entries is not modelled (the
written text is the entry's `content` field verbatim). -/

/-- A file's observable state: content and modification time. -/
structure FileData where
  content : String
  mtime : String
deriving DecidableEq, Repr

/-- The filesystem model. -/
def FSModel : Type := String → Option FileData

/-- `path.join(a, b)` (no normalization needed for the modelled calls). -/
def joinPath (a b : String) : String := a ++ "/" ++ b

/-- `path.extname`: the suffix of the last path segment from its final
dot, empty for dotless or dotfile names. -/
def extnameOf (s : String) : String :=
  let base := s.data.foldl (fun acc c => if c = '/' then [] else acc ++ [c]) []
  let revTail := base.reverse.takeWhile fun c => c ≠ '.'
  if revTail.length = base.length then ""
  else if revTail.length + 1 = base.length ∧ base.head? = some '.' then ""
  else ⟨'.' :: revTail.reverse⟩

/-- `fs.writeFile` / `fs.copyFile`: sets content, stamps `now`. -/
def writeFS (fs : FSModel) (p : String) (content now : String) : FSModel :=
  fun q => if q = p then some ⟨content, now⟩ else fs q

/-- `fs.utimes`: fails when the path does not exist. -/
def setMtimeFS (fs : FSModel) (p : String) (t : String) :
    Except String FSModel :=
  match fs p with
  | some d => .ok fun q => if q = p then some ⟨d.content, t⟩ else fs q
  | none => .error "utimes: no such file or directory"

/-- File metadata as recorded by the packer; the empty string models a
missing/falsy field. -/
structure FileMetadata where
  updatedAt : String := ""
  updatedHash : String := ""
deriving DecidableEq, Repr

/-- Template entry kinds. -/
inductive TplFileType | text | json | binary
deriving DecidableEq, Repr

/-- A template file entry (fields used by `restoreFile`). -/
structure TemplatesFileContent where
  content : String
  ttype : TplFileType
  binaryHash : String := ""
  metadata : Option FileMetadata := none

/-- `restoreFile` (`pack/cmd.ts` 227-267): skip an existing destination
unless `force`; otherwise write the entry (binary entries copy from the
shared binaries directory, a missing binary is logged and skipped) and
restore the recorded mtime when present. -/
def restoreFile (fs : FSModel) (outRoot relPath : String)
    (meta : TemplatesFileContent) (binsDir : String) (force : Bool)
    (now : String) : Except String FSModel :=
  let dest := joinPath outRoot relPath
  if force = false ∧ (fs dest).isSome then .ok fs
  else
    let fs1 : FSModel :=
      match meta.ttype with
      | .binary =>
        let src := joinPath binsDir (meta.binaryHash ++ extnameOf relPath)
        match fs src with
        | some d => writeFS fs dest d.content now
        | none => fs
      | _ => writeFS fs dest meta.content now
    match meta.metadata with
    | some md =>
      if md.updatedAt ≠ "" then setMtimeFS fs1 dest md.updatedAt
      else .ok fs1
    | none => .ok fs1

/-- C9: unpack without `--force` is non-destructive — when the destination
file already exists, `restoreFile` returns the filesystem unchanged (same
content, same mtime, for every path), and an existing destination can only
change when `force` is true. -/
theorem restoreFile_nonDestructive :
    (∀ (fs : FSModel) (outRoot relPath : String)
        (meta : TemplatesFileContent) (binsDir now : String)
        (d : FileData),
      fs (joinPath outRoot relPath) = some d →
      restoreFile fs outRoot relPath meta binsDir false now = .ok fs) ∧
    (∀ (fs : FSModel) (outRoot relPath : String)
        (meta : TemplatesFileContent) (binsDir : String) (force : Bool)
        (now : String) (d : FileData) (fs2 : FSModel),
      fs (joinPath outRoot relPath) = some d →
      restoreFile fs outRoot relPath meta binsDir force now = .ok fs2 →
      fs2 (joinPath outRoot relPath) ≠ some d →
      force = true) := by
  have skip : ∀ (fs : FSModel) (outRoot relPath : String)
      (meta : TemplatesFileContent) (binsDir now : String) (d : FileData),
      fs (joinPath outRoot relPath) = some d →
      restoreFile fs outRoot relPath meta binsDir false now = .ok fs := by
    intro fs outRoot relPath meta binsDir now d h
    unfold restoreFile
    rw [if_pos ⟨rfl, by rw [h]; rfl⟩]
  refine ⟨skip, ?_⟩
  intro fs outRoot relPath meta binsDir force now d fs2 h hrun hne
  cases force with
  | true => rfl
  | false =>
    rw [skip fs outRoot relPath meta binsDir now d h] at hrun
    exact absurd (Except.ok.inj hrun ▸ h) hne

/-- Witness for C9: a concrete existing destination is left untouched. -/
theorem restoreFile_nonDestructive_witness :
    restoreFile
        (fun p => if p = "out/a.txt" then some ⟨"old", "t0"⟩ else none)
        "out" "a.txt" ⟨"new", .text, "", none⟩ "bins" false "t1" =
      .ok (fun p => if p = "out/a.txt" then some ⟨"old", "t0"⟩ else none) :=
  restoreFile_nonDestructive.1 _ "out" "a.txt" _ "bins" "t1" ⟨"old", "t0"⟩
    (by decide)

/-- `getFileMetadata` (`pack/cmd.ts` 80-94): `statAndHash` is the result
of `Promise.all([fs.stat, hashFile])` — `none` models either operation
failing; on failure the current time and an empty hash are recorded instead
of throwing. -/
def getFileMetadata (statAndHash : Option (String × String))
    (now : String) : FileMetadata :=
  match statAndHash with
  | some sh => { updatedAt := sh.1, updatedHash := sh.2 }
  | none => { updatedAt := now, updatedHash := "" }

/-- The incremental re-pack reuse condition (`pack/cmd.ts` 499-506): a file
is reused verbatim only when both the recorded and the fresh hash are
non-empty and either the hashes agree or the source is not newer. -/
def shouldReuseExisting (existing : Option FileMetadata)
    (fresh : FileMetadata) : Bool :=
  match existing with
  | none => false
  | some em =>
    em.updatedHash != "" && fresh.updatedHash != "" &&
      (em.updatedHash == fresh.updatedHash ||
        (fresh.updatedAt != "" && em.updatedAt != "" &&
          strLe fresh.updatedAt em.updatedAt))

/-- C10: `getFileMetadata` is total — on a failed stat/hash it returns a
record carrying the current time and the empty hash — and such a failure
record never satisfies the incremental re-pack reuse condition, whatever
hash was previously recorded. -/
theorem getFileMetadata_total_failSafe :
    (∀ now : String,
      getFileMetadata none now = { updatedAt := now, updatedHash := "" }) ∧
    (∀ (existing : Option FileMetadata) (now : String),
      shouldReuseExisting existing (getFileMetadata none now) = false) := by
  constructor
  · intro now
    rfl
  · intro existing now
    cases existing with
    | none => rfl
    | some em => simp [shouldReuseExisting, getFileMetadata]

/-! ## C7 — entry-point inference (`inferEntries`,
`sdk-impl/build/providers/auto.ts` 60-161)

`pkg.exports` is consumed through `extractExportFilenames`, which lives in
a module not included in the sources; the claim exercises only the
`bin`/`main`/`module`/`types` outputs, so the `exports` contribution is
omitted.  `existsSync` is the `fsExists` parameter.  The interpolated
candidate of `SOURCE_RE` is treated literally (the modelled candidates
contain only literal path characters). -/

/-- The package-descriptor fields read by `inferEntries`. -/
structure AutoPkg where
  bin : List String := []
  main : Option String := none
  module : Option String := none
  types : Option String := none
  typings : Option String := none
  ptype : Option String := none

/-- An output's detected module format. -/
inductive OutFmt | esm | cjs
deriving DecidableEq, Repr

/-- One declared output (`{ file, type }`). -/
structure OutputDescriptor where
  file : String
  otype : Option OutFmt := none
deriving DecidableEq, Repr

/-- Output collection (`auto.ts` 84-98): `bin` values, `main`, `module`
(tagged esm), then `types`/`typings`. -/
def collectOutputs (pkg : AutoPkg) : List OutputDescriptor :=
  (pkg.bin.map fun f => { file := f }) ++
  (match pkg.main with
   | some m => [{ file := m }]
   | none => []) ++
  (match pkg.module with
   | some m => [{ file := m, otype := some .esm }]
   | none => []) ++
  (match pkg.types with
   | some t => [{ file := t }]
   | none =>
     match pkg.typings with
     | some t => [{ file := t }]
     | none => [])

/-- Output-type detection (`auto.ts` 100-109). -/
def detectOutputType (isESMPkg : Bool) (o : OutputDescriptor) :
    OutputDescriptor :=
  match o.otype with
  | some _ => o
  | none =>
    let isJS := strEndsWith o.file ".js"
    if (isESMPkg && isJS) || strEndsWith o.file ".mjs" then
      { o with otype := some .esm }
    else if (!isESMPkg && isJS) || strEndsWith o.file ".cjs" then
      { o with otype := some .cjs }
    else o

/-- A `\w` word character. -/
def isWordChar (c : Char) : Bool := c.isAlphanum || c = '_'

/-- Does the whole suffix match one alternative of the slug-stripping
regex `(\*[^/\\]*|\.d\.(m|c)?ts|\.\w+)$`? -/
def slugSuffixMatch : List Char → Bool
  | '*' :: rest => rest.all fun c => !isSlash c
  | '.' :: rest =>
    rest = ['d', '.', 't', 's'] || rest = ['d', '.', 'm', 't', 's'] ||
      rest = ['d', '.', 'c', 't', 's'] ||
      (!rest.isEmpty && rest.all isWordChar)
  | _ => false

/-- Leftmost-match suffix removal (`String.replace` with an anchored,
non-global regex). -/
def stripSuffixScan : List Char → List Char
  | [] => []
  | c :: r => if slugSuffixMatch (c :: r) then [] else c :: stripSuffixScan r

/-- The output slug (`auto.ts` 119). -/
def stripOutputSlug (file : String) : String := ⟨stripSuffixScan file.data⟩

/-- Does the whole suffix match one alternative of the source-extension
regex `(\.d\.(m|c)?ts|\.\w+)$`? -/
def extSuffixMatch : List Char → Bool
  | '.' :: rest =>
    rest = ['d', '.', 't', 's'] || rest = ['d', '.', 'm', 't', 's'] ||
      rest = ['d', '.', 'c', 't', 's'] ||
      (!rest.isEmpty && rest.all isWordChar)
  | _ => false

/-- Leftmost-match removal of a source file's extension (`auto.ts` 133). -/
def stripExtScan : List Char → List Char
  | [] => []
  | c :: r => if extSuffixMatch (c :: r) then [] else c :: stripExtScan r

/-- Source extension stripping, `String` interface. -/
def stripSourceExt (file : String) : String := ⟨stripExtScan file.data⟩

/-- Split a character list at every `'/'`. -/
def splitOnSlash : List Char → List (List Char)
  | [] => [[]]
  | c :: r =>
    let rest := splitOnSlash r
    if c = '/' then [] :: rest
    else
      match rest with
      | h :: t => (c :: h) :: t
      | [] => [[c]]

/-- Join segments with `'/'`. -/
def joinWithSlash : List (List Char) → List Char
  | [] => []
  | [x] => x
  | x :: y :: t => x ++ '/' :: joinWithSlash (y :: t)

/-- Resolve `.` and `..` segments and drop empty ones (the segment pass of
`path.normalize`; `..` above a relative root is preserved). -/
def normalizeSegs (segs : List (List Char)) : List (List Char) :=
  segs.foldl (fun acc s =>
    if s = [] ∨ s = ['.'] then acc
    else if s = ['.', '.'] then
      match acc.getLast? with
      | some prev => if prev = ['.', '.'] then acc ++ [s] else acc.dropLast
      | none => acc ++ [s]
    else acc ++ [s]) []

/-- `path.normalize`: segment normalization preserving a leading root and
a trailing slash. -/
def pathNormalize (p : String) : String :=
  let l := p.data
  let abs := l.head? = some '/'
  let trail := l.getLast? = some '/' ∧ l ≠ ['/']
  let core := joinWithSlash (normalizeSegs (splitOnSlash l))
  let core := if abs then '/' :: core else core
  let core := if core = [] then (if abs then ['/'] else ['.']) else core
  ⟨if trail ∧ core ≠ ['/'] then core ++ ['/'] else core⟩

/-- `getEntrypointPaths` (`auto.ts` 60-63): every dropped-prefix suffix of
the normalized path's segments, empty entries filtered out. -/
def getEntrypointPaths (p : String) : List String :=
  let segments := splitOnSlash (pathNormalize p).data
  ((List.range segments.length).map fun i =>
    (⟨joinWithSlash (segments.drop i)⟩ : String)).filter fun s => s ≠ ""

/-- The tail of a `SOURCE_RE` match after the mandatory slash: the
candidate `d`, then nothing (directory form) or a dot-extension. -/
def candTailMatch (d : List Char) (isDir : Bool) (r : List Char) : Bool :=
  d.isPrefixOf r &&
    (let rest := r.drop d.length
     if isDir then rest.isEmpty
     else
       match rest with
       | '.' :: w => !w.isEmpty && w.all isWordChar
       | _ => false)

/-- `SOURCE_RE.test` (`auto.ts` 132-133): the candidate must occur right
after a `/` and run to the end of the file name (the `(?<=/|$)`
lookbehind can otherwise only succeed on an empty remainder). -/
def candMatchesScan (d : List Char) (isDir : Bool) : List Char → Bool
  | [] => false
  | c :: r => (c = '/' && candTailMatch d isDir r) || candMatchesScan d isDir r

/-- The `reduce` over candidate paths (`auto.ts` 128-134): first candidate
with a matching source file wins; the match is the first file in the
depth-sorted listing, with its extension stripped. -/
def findInput (sorted : List String) (cands : List String) (isDir : Bool) :
    Option String :=
  cands.findSome? fun d =>
    (sorted.find? fun f => candMatchesScan d.data isDir f.data).map
      stripSourceExt

/-- Segment count used as the sort key (`auto.ts` 79). -/
def countSegs (s : String) : Nat := (splitOnSlash s.data).length

/-- Stable insertion by key (ascending). -/
def insertByKey (key : String → Nat) (a : String) :
    List String → List String
  | [] => [a]
  | b :: t =>
    if key a ≤ key b then a :: b :: t else b :: insertByKey key a t

/-- Stable ascending sort by key, modelling the JavaScript stable
`Array.prototype.sort` with a numeric comparator. -/
def stableSortByKey (key : String → Nat) (l : List String) : List String :=
  l.foldr (insertByKey key) []

/-- A build entry (`{ input, isLib }` plus the directory-output fields). -/
structure BuildEntry where
  input : String
  isLib : Bool
  outDir : Option String := none
  format : Option OutFmt := none
deriving DecidableEq, Repr

/-- The accumulator of the inference loop. -/
structure InferState where
  cjs : Bool := false
  dts : Bool := false
  entries : List BuildEntry := []
  warnings : List String := []
deriving DecidableEq, Repr

/-- `/\.d\.(m|c)?ts$/.test` (`auto.ts` 150). -/
def isDeclPattern (file : String) : Bool :=
  strEndsWith file ".d.ts" || strEndsWith file ".d.mts" ||
    strEndsWith file ".d.cts"

/-- One iteration of the output loop (`auto.ts` 116-158). -/
def inferStep (sorted : List String) (fsExists : String → Bool)
    (rootDir : String) (isLib : Bool) (st : InferState)
    (o : OutputDescriptor) : InferState :=
  if strEndsWith (stripOutputSlug o.file) "/" = true ∧
      (stripOutputSlug o.file = "./" ∨ stripOutputSlug o.file = "/") then st
  else
    match findInput sorted (getEntrypointPaths (stripOutputSlug o.file))
        (strEndsWith (stripOutputSlug o.file) "/") with
    | none =>
      if fsExists (joinPath rootDir o.file) then st
      else
        { st with warnings := st.warnings ++
            ["Could not find entrypoint for \x60" ++ o.file ++ "\x60"] }
    | some input =>
      let st1 := if o.otype = some .cjs then { st with cjs := true } else st
      let entries2 :=
        if st1.entries.any fun e => e.input = input then st1.entries
        else st1.entries ++ [{ input := input, isLib := isLib }]
      let st2 := { st1 with entries := entries2 }
      let st3 := if isDeclPattern o.file then { st2 with dts := true } else st2
      if strEndsWith (stripOutputSlug o.file) "/" then
        { st3 with entries := st3.entries.map fun e =>
            if e.input = input then
              { e with
                outDir := some (stripOutputSlug o.file)
                format := o.otype }
            else e }
      else st3

/-- `inferEntries` (`auto.ts` 70-161): sort sources by nesting depth,
collect and type the declared outputs, then fold the inference step. -/
def inferEntries (pkg : AutoPkg) (sourceFiles : List String) (isLib : Bool)
    (fsExists : String → Bool) (rootDir : String) : InferState :=
  let sorted := stableSortByKey countSegs sourceFiles
  let isESMPkg := pkg.ptype = some "module"
  let outputs := (collectOutputs pkg).map (detectOutputType isESMPkg)
  outputs.foldl (inferStep sorted fsExists rootDir isLib) {}

/-- The spec's concrete package: `main: "dist/index.js"`,
`type: "module"`. -/
def c7Pkg : AutoPkg := { main := some "dist/index.js", ptype := some "module" }

example :
    inferEntries c7Pkg ["src/index.ts"] false (fun _ => false) "." =
      { cjs := false, dts := false,
        entries := [{ input := "src/index", isLib := false }],
        warnings := [] } := by decide

/-- C7 counterexample: on the spec's concrete input the inferred entry's
input is `src/index`, but the returned entry carries no module-format
marker at all (`format` is only assigned for directory-style outputs), so
the entry is not "marked esm" as claimed. -/
theorem inferEntries_counterexample :
    ((inferEntries c7Pkg ["src/index.ts"] false (fun _ => false) ".").entries.map
        fun e => e.input) = ["src/index"] ∧
    ∀ e ∈ (inferEntries c7Pkg ["src/index.ts"] false
        (fun _ => false) ".").entries, e.format ≠ some .esm := by decide

/-- C7 (amended): on the spec's concrete input, inference locates
`src/index` as the entry input, the output is classified ESM internally
(so no CJS artifact is enabled: `cjs = false`) and no warning is emitted,
but the entry itself carries no format marker; and, in general, for every
declared output whose slug candidates match no source file and whose
literal file does not exist on disk, the step emits exactly the warning
"Could not find entrypoint for `<file>`" and changes nothing else (in
particular it adds no entry). -/
theorem inferEntries_amended :
    (inferEntries c7Pkg ["src/index.ts"] false (fun _ => false) "." =
      { cjs := false, dts := false,
        entries := [{ input := "src/index", isLib := false }],
        warnings := [] }) ∧
    (∀ (sorted : List String) (fsExists : String → Bool) (rootDir : String)
        (isLib : Bool) (st : InferState) (o : OutputDescriptor),
      stripOutputSlug o.file ≠ "./" →
      stripOutputSlug o.file ≠ "/" →
      (∀ d ∈ getEntrypointPaths (stripOutputSlug o.file), ∀ f ∈ sorted,
        candMatchesScan d.data (strEndsWith (stripOutputSlug o.file) "/")
          f.data = false) →
      fsExists (joinPath rootDir o.file) = false →
      inferStep sorted fsExists rootDir isLib st o =
        { st with warnings := st.warnings ++
            ["Could not find entrypoint for \x60" ++ o.file ++ "\x60"] }) := by
  constructor
  · decide
  · intro sorted fsExists rootDir isLib st o h1 h2 hnm hnf
    unfold inferStep
    rw [if_neg (fun h => h.2.elim h1 h2)]
    have hnone : findInput sorted (getEntrypointPaths (stripOutputSlug o.file))
        (strEndsWith (stripOutputSlug o.file) "/") = none := by
      unfold findInput
      rw [List.findSome?_eq_none_iff]
      intro d hd
      rw [Option.map_eq_none']
      rw [List.find?_eq_none]
      intro f hf
      rw [hnm d hd f hf]
      simp
    rw [hnone, if_neg (by simp [hnf])]

/-- Witness for the amended C7: a concrete output with no matching source
and no file on disk yields exactly the warning. -/
theorem inferEntries_amended_witness :
    inferStep ["src/index.ts"] (fun _ => false) "." false {}
        { file := "dist/nope.js" } =
      { warnings := ["Could not find entrypoint for \x60dist/nope.js\x60"] } := by
  have h := inferEntries_amended.2 ["src/index.ts"] (fun _ => false) "."
    false {} { file := "dist/nope.js" } (by decide) (by decide) (by decide)
    rfl
  exact h

/-! ## C3 — cross-library import rewrite
(`processLibraryImportsInFile` `sdk-mod.ts` 2070-2201,
`unstable_convertImportPathsToPkgNames` 2206-2265, `DEBUG_DISABLE` 47-54)

Paths are modelled POSIX-style (`'/'` separators; the source's extra
Windows back-slash branches are not exercised).  The import-statement regex
is embedded as a surface scanner locating `from <ws> <quote> specifier
<quote>` occurrences, which reproduces the regex's specifier capture and
offset arithmetic (`matchStart + importPathIndex`) on the modelled
contents. -/

/-- Normalize absolute-path segments: drop empty and `.` segments, let
`..` pop (and vanish at the root, as `path.resolve` does). -/
def normAbsSegs (segs : List (List Char)) : List (List Char) :=
  segs.foldl (fun acc s =>
    if s = [] ∨ s = ['.'] then acc
    else if s = ['.', '.'] then acc.dropLast
    else acc ++ [s]) []

/-- Render absolute-path segments. -/
def renderAbs (segs : List (List Char)) : String :=
  ⟨'/' :: joinWithSlash segs⟩

/-- Segments of an absolute path. -/
def absSegsOf (p : String) : List (List Char) :=
  normAbsSegs (splitOnSlash p.data)

/-- `path.resolve(base, rel)` for an absolute `base`. -/
def pathResolve (base rel : String) : String :=
  if rel.data.head? = some '/' then renderAbs (absSegsOf rel)
  else renderAbs (normAbsSegs (splitOnSlash base.data ++ splitOnSlash rel.data))

/-- `path.join(a, b)` for an absolute `a`. -/
def pathJoin (a b : String) : String :=
  renderAbs (normAbsSegs (splitOnSlash a.data ++ splitOnSlash b.data))

/-- `path.dirname`. -/
def pathDirname (p : String) : String :=
  let segs := splitOnSlash p.data
  let segs := if segs.getLast? = some [] then segs.dropLast else segs
  let start := segs.dropLast
  if p.data.head? = some '/' then
    match start with
    | [] => "/"
    | [[]] => "/"
    | _ => ⟨joinWithSlash start⟩
  else
    match start with
    | [] => "."
    | _ => ⟨joinWithSlash start⟩

/-- `path.basename`. -/
def pathBasename (p : String) : String :=
  match ((splitOnSlash p.data).filter fun s => s ≠ []).getLast? with
  | some s => ⟨s⟩
  | none => ""

/-- Drop the common leading segments of two segment lists. -/
def dropCommonSegs :
    List (List Char) → List (List Char) →
      List (List Char) × List (List Char)
  | a :: as, b :: bs =>
    if a = b then dropCommonSegs as bs else (a :: as, b :: bs)
  | as, bs => (as, bs)

/-- `path.relative(fromP, toP)` for absolute arguments. -/
def pathRelative (fromP toP : String) : String :=
  let p := dropCommonSegs (absSegsOf fromP) (absSegsOf toP)
  ⟨joinWithSlash (List.replicate p.1.length ['.', '.'] ++ p.2)⟩

/-- The absolute target of an import specifier (`sdk-mod.ts` 2127-2136):
`~/` joins against the project root (`process.cwd()`), a relative
specifier resolves against the importing file's directory. -/
def importAbsolutePath (cwd file importPath : String) : String :=
  if strStartsWith importPath "~/" then
    pathJoin cwd ⟨importPath.data.drop 2⟩
  else pathResolve (pathDirname file) importPath

/-- `relativeToRoot` (`sdk-mod.ts` 2138-2139). -/
def importRelativeToRoot (cwd file importPath : String) : String :=
  pathRelative cwd (importAbsolutePath cwd file importPath)

/-- The loop over configured libraries (`sdk-mod.ts` 2141-2171): the
current library is skipped; the first other library whose `main` directory
is a string prefix of the import's root-relative path — or whose directory
basename equals the path's parent basename — wins. -/
def libsLoop (relativeToRoot : String) (currentLibName : Option String) :
    List (String × LibConfig) → Option String
  | [] => none
  | (libName, libConfig) :: rest =>
    if currentLibName = some libName then
      libsLoop relativeToRoot currentLibName rest
    else
      if strStartsWith relativeToRoot (pathDirname libConfig.main) = true ∨
          pathBasename (pathDirname relativeToRoot) =
            pathBasename (pathDirname libConfig.main) then
        some libName
      else libsLoop relativeToRoot currentLibName rest

/-- The per-import decision (`sdk-mod.ts` 2110-2174): `dist-libs` imports
and bare package imports are left alone; alias (`~/`) and relative imports
are resolved and matched against the other configured libraries, returning
the winning library's package name as the replacement. -/
def importDecision (cwd file : String) (libs : List (String × LibConfig))
    (currentLibName : Option String) (importPath : String) :
    Option String :=
  if strIncludes importPath "dist-libs" = true then none
  else if strStartsWith importPath "~/" = true ∨
      strStartsWith importPath "." = true then
    libsLoop (importRelativeToRoot cwd file importPath) currentLibName libs
  else none

/-- Whitespace as matched by `\s` (the cases occurring in the modelled
contents). -/
def isWsChar (c : Char) : Bool :=
  c = ' ' || c = '\n' || c = '\t' || c = '\r'

/-- A string-literal quote. -/
def isQuote (c : Char) : Bool := c = '"' || c = '\x27'

/-- Surface scanner for the import regex (`sdk-mod.ts` 2077-2103): finds
each `from <ws>+ <quote> specifier <quote>` occurrence and records the
specifier together with its start and end offsets in the content (the
source's `matchStart + importPathIndex` arithmetic).  Fuel is the content
length. -/
def scanImports : Nat → List Char → Nat → List (String × Nat × Nat)
  | 0, _, _ => []
  | _, [], _ => []
  | fuel + 1, c :: r, i =>
    if c = 'f' then
      match r with
      | 'r' :: 'o' :: 'm' :: r2 =>
        let ws := r2.takeWhile isWsChar
        let r3 := r2.drop ws.length
        if ws.length > 0 then
          match r3 with
          | q :: r4 =>
            if isQuote q then
              let spec := r4.takeWhile fun ch => ch ≠ q
              let r5 := r4.drop spec.length
              match r5 with
              | _ :: r6 =>
                let specStart := i + 5 + ws.length
                (⟨spec⟩, specStart, specStart + spec.length) ::
                  scanImports fuel r6 (specStart + spec.length + 1)
              | [] => []
            else scanImports fuel r (i + 1)
          | [] => []
        else scanImports fuel r (i + 1)
      | _ => scanImports fuel r (i + 1)
    else scanImports fuel r (i + 1)

/-- Import extraction with the bare-package filter (`sdk-mod.ts`
2090-2097): only specifiers starting with `.`, `/` or `~` are kept. -/
def extractImports (content : String) : List (String × Nat × Nat) :=
  (scanImports (content.data.length + 1) content.data 0).filter fun t =>
    strStartsWith t.1 "." || strStartsWith t.1 "/" || strStartsWith t.1 "~"

/-- One text splice (`sdk-mod.ts` 2196-2197). -/
def spliceReplace (content : List Char) (start stop : Nat)
    (repl : List Char) : List Char :=
  content.take start ++ repl ++ content.drop stop

/-- Insertion into a list sorted by descending start offset. -/
def insertByStartDesc (a : Nat × Nat × String) :
    List (Nat × Nat × String) → List (Nat × Nat × String)
  | [] => [a]
  | b :: t => if b.1 ≤ a.1 then a :: b :: t else b :: insertByStartDesc a t

/-- Replacements are applied in reverse start order so earlier splices
never invalidate later offsets (`sdk-mod.ts` 2191-2198). -/
def applyReplacements (content : String)
    (repls : List (Nat × Nat × String)) : String :=
  (repls.foldr insertByStartDesc []).foldl
    (fun acc r => ⟨spliceReplace acc.data r.1 r.2.1 r.2.2.data⟩) content

/-- `processLibraryImportsInFile` (`sdk-mod.ts` 2070-2201): extract
the imports, decide a replacement for each, splice the replacements in;
when nothing matches the content is returned unchanged. -/
def processLibraryImportsInFile (cwd file content : String)
    (libs : List (String × LibConfig)) (currentLibName : Option String) :
    String :=
  let repls := (extractImports content).filterMap fun t =>
    (importDecision cwd file libs currentLibName t.1).map fun libName =>
      (t.2.1, t.2.2, libName)
  if repls.isEmpty then content else applyReplacements content repls

/-- `DEBUG_DISABLE.unstable_convertImportPathsToPkgNames`
(`sdk-mod.ts` 47-50): the cross-library rewrite step is disabled. -/
def debugDisableConvertImportPaths : Bool := true

/-- Current-library detection from the output path (`sdk-mod.ts`
2232-2247). -/
def currentLibFor (outdirBin : String) (libs : List (String × LibConfig)) :
    Option String :=
  (libs.find? fun e =>
    strIncludes outdirBin
      ("/dist-libs/" ++ pathBasename (pathDirname e.2.main) ++ "/") ||
    strIncludes outdirBin
      ("\\dist-libs\\" ++ pathBasename (pathDirname e.2.main) ++ "\\")).map
    fun e => e.1

/-- The per-file action of `unstable_convertImportPathsToPkgNames`
(`sdk-mod.ts` 2206-2265): returns immediately — leaving the file unchanged
— while the `DEBUG_DISABLE` flag is set; otherwise it would detect the
current library and process the file. -/
def unstable_convertImportPathsToPkgNamesFile (cwd outdirBin file
    content : String) (libs : List (String × LibConfig)) : String :=
  if debugDisableConvertImportPaths then content
  else if libs.isEmpty then content
  else processLibraryImportsInFile cwd file content libs
    (currentLibFor outdirBin libs)

/-- The two-library configuration of the spec's example. -/
def c3Libs : List (String × LibConfig) :=
  [("libA", { main := "src/libs/a/a-main.ts" }),
   ("libB", { main := "src/libs/b/b-main.ts" })]

/-- A file in libB's build output importing a relative path that resolves
into libA's source directory. -/
def c3Content : String :=
  "import x from \"../../../../src/libs/a/utils\";\n"

example :
    processLibraryImportsInFile "/proj" "/proj/dist-libs/b/npm/bin/b-main.ts"
        c3Content c3Libs (some "libB") =
      "import x from \"libA\";\n" := by decide

example :
    currentLibFor "/proj/dist-libs/b/npm/bin" c3Libs = some "libB" := by
  decide

theorem strStartsWith_refl (s : String) : strStartsWith s s = true :=
  List.isPrefixOf_iff_prefix.mpr (List.prefix_refl _)

theorem strStartsWith_of_append (s pre extra : String)
    (h : strStartsWith s (pre ++ extra) = true) :
    strStartsWith s pre = true := by
  have hd : (pre ++ extra).data = pre.data ++ extra.data := rfl
  have h2 : (pre.data ++ extra.data).isPrefixOf s.data = true := by
    rw [← hd]
    exact h
  exact List.isPrefixOf_iff_prefix.mpr
    (List.IsPrefix.trans (List.prefix_append _ _)
      (List.isPrefixOf_iff_prefix.mp h2))

theorem libsLoop_none (rel : String) (cur : Option String)
    (libs : List (String × LibConfig))
    (h : ∀ e ∈ libs, cur = some e.1 ∨
      (strStartsWith rel (pathDirname e.2.main) = false ∧
        pathBasename (pathDirname rel) ≠
          pathBasename (pathDirname e.2.main))) :
    libsLoop rel cur libs = none := by
  induction libs with
  | nil => rfl
  | cons e rest ih =>
    obtain ⟨libName, libConfig⟩ := e
    have ihr := ih fun x hx => h x (List.mem_cons_of_mem _ hx)
    by_cases hc : cur = some libName
    · rw [libsLoop, if_pos hc, ihr]
    · rcases h _ (List.mem_cons_self _ _) with hcur | ⟨h1, h2⟩
      · exact absurd hcur hc
      · have h1b : strStartsWith rel (pathDirname libConfig.main) = false :=
          h1
        have h2b : pathBasename (pathDirname rel) ≠
            pathBasename (pathDirname libConfig.main) := h2
        rw [libsLoop, if_neg hc,
          if_neg (fun hopp => hopp.elim
            (fun ht => by rw [h1b] at ht; exact Bool.noConfusion ht) h2b),
          ihr]

/-- C3 counterexample: the library post-build step
(`unstable_convertImportPathsToPkgNames`) is disabled by `DEBUG_DISABLE`
and leaves every file unchanged, so a file in libB's output importing a
relative path into libA's source directory keeps the relative specifier
instead of the claimed package name — even though the underlying rewrite
routine would produce `libA`. -/
theorem convertImportPaths_counterexample :
    unstable_convertImportPathsToPkgNamesFile "/proj"
        "/proj/dist-libs/b/npm/bin" "/proj/dist-libs/b/npm/bin/b-main.ts"
        c3Content c3Libs = c3Content ∧
    processLibraryImportsInFile "/proj"
        "/proj/dist-libs/b/npm/bin/b-main.ts" c3Content c3Libs
        (some "libB") = "import x from \"libA\";\n" ∧
    c3Content ≠ "import x from \"libA\";\n" := by
  refine ⟨rfl, by decide, by decide⟩

/-- C3 (amended): the rewrite logic of `processLibraryImportsInFile`
behaves as the claim describes — an alias-form or relative import that
resolves into another configured library's source directory is replaced by
that library's literal package name, imports already referencing
`dist-libs` are left unchanged, and imports that match no other library
(in particular the current library's own imports) are left unchanged — but
the post-build step itself is disabled by `DEBUG_DISABLE` and rewrites
nothing. -/
theorem convertImportPaths_amended :
    (∀ (cwd outdirBin file content : String)
        (libs : List (String × LibConfig)),
      unstable_convertImportPathsToPkgNamesFile cwd outdirBin file content
        libs = content) ∧
    (∀ (cwd file importPath libA mainA libB mainB : String)
        (depsA depsB : Option LibDeps) (libs : List (String × LibConfig)),
      (libs = [(libA, ⟨mainA, depsA⟩), (libB, ⟨mainB, depsB⟩)] ∨
        libs = [(libB, ⟨mainB, depsB⟩), (libA, ⟨mainA, depsA⟩)]) →
      libA ≠ libB →
      strIncludes importPath "dist-libs" = false →
      (strStartsWith importPath "~/" = true ∨
        strStartsWith importPath "." = true) →
      (importRelativeToRoot cwd file importPath = pathDirname mainA ∨
        strStartsWith (importRelativeToRoot cwd file importPath)
          (pathDirname mainA ++ "/") = true) →
      importDecision cwd file libs (some libB) importPath = some libA) ∧
    (∀ (cwd file importPath : String) (cur : Option String)
        (libs : List (String × LibConfig)),
      strIncludes importPath "dist-libs" = true →
      importDecision cwd file libs cur importPath = none) ∧
    (∀ (cwd file importPath : String) (cur : Option String)
        (libs : List (String × LibConfig)),
      (∀ e ∈ libs, cur = some e.1 ∨
        (strStartsWith (importRelativeToRoot cwd file importPath)
            (pathDirname e.2.main) = false ∧
          pathBasename (pathDirname (importRelativeToRoot cwd file
            importPath)) ≠ pathBasename (pathDirname e.2.main))) →
      importDecision cwd file libs cur importPath = none) := by
  refine ⟨?_, ?_, ?_, ?_⟩
  · intro cwd outdirBin file content libs
    rfl
  · intro cwd file importPath libA mainA libB mainB depsA depsB libs hlibs
      hne hdl hpre hres
    have hcond : strStartsWith (importRelativeToRoot cwd file importPath)
        (pathDirname mainA) = true ∨
        pathBasename (pathDirname (importRelativeToRoot cwd file
          importPath)) = pathBasename (pathDirname mainA) := by
      refine Or.inl ?_
      rcases hres with hres | hres
      · rw [hres]
        exact strStartsWith_refl _
      · exact strStartsWith_of_append _ _ _ hres
    have hAcase : libsLoop (importRelativeToRoot cwd file importPath)
        (some libB) [(libA, ⟨mainA, depsA⟩)] = some libA := by
      rw [libsLoop,
        if_neg (fun hh => hne (Option.some.inj hh).symm),
        if_pos hcond]
    unfold importDecision
    rw [if_neg (fun hh => by rw [hdl] at hh; exact Bool.noConfusion hh),
      if_pos hpre]
    rcases hlibs with hlibs | hlibs <;> rw [hlibs]
    · rw [libsLoop, if_neg (fun hh => hne (Option.some.inj hh).symm),
        if_pos hcond]
    · rw [libsLoop, if_pos rfl]
      exact hAcase
  · intro cwd file importPath cur libs hdl
    unfold importDecision
    rw [if_pos hdl]
  · intro cwd file importPath cur libs h
    unfold importDecision
    by_cases hdl : strIncludes importPath "dist-libs" = true
    · rw [if_pos hdl]
    · rw [if_neg hdl]
      by_cases hpre : strStartsWith importPath "~/" = true ∨
          strStartsWith importPath "." = true
      · rw [if_pos hpre]
        exact libsLoop_none _ _ _ h
      · rw [if_neg hpre]

/-- Witness for the amended C3 on the spec's concrete two-library
configuration. -/
theorem convertImportPaths_amended_witness :
    unstable_convertImportPathsToPkgNamesFile "/proj"
        "/proj/dist-libs/b/npm/bin" "/proj/dist-libs/b/npm/bin/b-main.ts"
        c3Content c3Libs = c3Content ∧
    importDecision "/proj" "/proj/dist-libs/b/npm/bin/b-main.ts" c3Libs
        (some "libB") "../../../../src/libs/a/utils" = some "libA" ∧
    importDecision "/proj" "/proj/dist-libs/b/npm/bin/b-main.ts" c3Libs
        (some "libB") "./sub/dist-libs/x" = none ∧
    importDecision "/proj" "/proj/dist-libs/b/npm/bin/b-main.ts"
        [("libB", { main := "src/libs/b/b-main.ts" })] (some "libB")
        "../../../../src/libs/b/b-main.ts" = none := by
  refine ⟨convertImportPaths_amended.1 "/proj" "/proj/dist-libs/b/npm/bin"
    "/proj/dist-libs/b/npm/bin/b-main.ts" c3Content c3Libs, ?_, ?_, ?_⟩
  · exact convertImportPaths_amended.2.1 "/proj"
      "/proj/dist-libs/b/npm/bin/b-main.ts" "../../../../src/libs/a/utils"
      "libA" "src/libs/a/a-main.ts" "libB" "src/libs/b/b-main.ts" none none
      c3Libs (Or.inl rfl) (by decide) (by decide) (Or.inr (by decide))
      (Or.inr (by decide))
  · exact convertImportPaths_amended.2.2.1 "/proj"
      "/proj/dist-libs/b/npm/bin/b-main.ts" "./sub/dist-libs/x"
      (some "libB") c3Libs (by decide)
  · exact convertImportPaths_amended.2.2.2 "/proj"
      "/proj/dist-libs/b/npm/bin/b-main.ts" "../../../../src/libs/b/b-main.ts"
      (some "libB") [("libB", { main := "src/libs/b/b-main.ts" })]
      (by decide)
